import Mathlib

/-!
# Verification of the DataDose cleaning pipeline (src/cleaning_pipeline.py)

Shallow embedding of the per-record cleaning pipeline of
`src/cleaning_pipeline.py` into Lean 4.  Strings are modelled as Lean
`String`s (lists of characters); the handful of regular expressions used by
the source are translated, one by one, into explicit left-to-right scanners
with the same leftmost-match, non-overlapping, greedy semantics as Python's
`re.sub`.  Character classes (`\d`, `\s`, `\w`, `[a-z]`, `[A-Z]`) are
modelled over their ASCII meaning, matching the data the pipeline is
designed for (the normalizer lowercases its input and later erases every
character outside `[a-z0-9+ \s]`).

The embedding follows the source order of `cleaning_pipeline.py`:
rule tables, the encoded-token decoder, spell fixing, the structural
normalizer `normalize_text`, the phrase classifiers, the token pipeline
(`expand_vitamin_shortcuts`, `remove_leading_numeric_tokens`,
`clean_ingredient_list`) and the per-row assembler `clean_active_ingredient`.
-/

/-! ## Character helpers (ASCII models of Python's regex character classes) -/

/-- Python regex `\w` over ASCII: letters, digits and underscore. -/
def isWordChar (c : Char) : Bool :=
  c.isAlpha || c.isDigit || c = '_'

/-- Python regex `[a-z]`. -/
def isLowerAZ (c : Char) : Bool :=
  'a' ≤ c && c ≤ 'z'

/-- Python regex `[A-Z]`. -/
def isUpperAZ (c : Char) : Bool :=
  'A' ≤ c && c ≤ 'Z'

/-- Python regex `\s` over ASCII whitespace. -/
def isWs (c : Char) : Bool :=
  c.isWhitespace

/-- Word-boundary test on the left of a match: the previous character (if
any) is not a word character.  Used for `\b` before a literal that starts
with a word character. -/
def nwBefore : Option Char → Bool
  | none => true
  | some p => !isWordChar p

/-- Word-boundary test on the right of a match that ends in a word
character: the next character (if any) is not a word character. -/
def nwAfter : List Char → Bool
  | [] => true
  | d :: _ => !isWordChar d

/-- Full `\b` test after a match whose last matched character is `last`:
a boundary holds iff exactly one side is a word character. -/
def boundaryAfter (last : Char) (rest : List Char) : Bool :=
  match rest with
  | [] => isWordChar last
  | d :: _ => isWordChar last ≠ isWordChar d

/-! ## Generic string machinery

All text operations are written over `List Char` by structural recursion
(several take an explicit fuel argument, always called with the length of
the text, which bounds the number of scanning steps), so that every
definition evaluates inside the kernel. -/

/-- Python `str.lower` (ASCII model). -/
def pyLower (s : String) : String :=
  ⟨s.data.map Char.toLower⟩

/-- Strip whitespace from both ends of a character list. -/
def trimCh (l : List Char) : List Char :=
  ((l.dropWhile isWs).reverse.dropWhile isWs).reverse

/-- Python `str.strip()`. -/
def pyStrip (s : String) : String :=
  ⟨trimCh s.data⟩

/-- Substring containment, `pat in hay` in Python. -/
def containsSub (pat : List Char) : List Char → Bool
  | [] => pat.isPrefixOf []
  | c :: rest => pat.isPrefixOf (c :: rest) || containsSub pat rest

/-- containsStr hay pat is Python's `pat in hay`. -/
def containsStr (hay pat : String) : Bool :=
  containsSub pat.data hay.data

/-- Python `str.replace`: replace every (leftmost, non-overlapping)
occurrence of `pat` by `rep`; the replacement text is not rescanned.  The
fuel argument (always instantiated with the text length, which bounds the
number of scan positions) makes the recursion structural. -/
def replaceAll (pat rep : List Char) : Nat → List Char → List Char
  | _, [] => []
  | 0, l => l
  | fuel + 1, c :: rest =>
    if pat ≠ [] ∧ pat.isPrefixOf (c :: rest) then
      rep ++ replaceAll pat rep fuel ((c :: rest).drop pat.length)
    else
      c :: replaceAll pat rep fuel rest

/-- Python `str.replace` on `String`s. -/
def replaceStr (s pat rep : String) : String :=
  ⟨replaceAll pat.data rep.data s.data.length s.data⟩

/-- Generic model of `re.sub(pattern, ...)`: scan the text left to right; at
each position ask the matcher `f prev l` whether the pattern matches the
suffix `l`, where `prev` is the previous character of the *original* text
(for look-behinds and `\b`).  On a match, `f` returns the replacement
characters and the number of consumed characters minus one; scanning
resumes after the consumed characters, exactly like `re.sub`.  Fuel as in
`replaceAll`.
-/
def scanSub (f : Option Char → List Char → Option (List Char × Nat)) :
    Nat → Option Char → List Char → List Char
  | _, _, [] => []
  | 0, _, l => l
  | fuel + 1, prev, c :: rest =>
    match f prev (c :: rest) with
    | some (out, k) => out ++ scanSub f fuel ((c :: rest).get? k) ((c :: rest).drop (k + 1))
    | none => c :: scanSub f fuel (some c) rest

/-- Run a `scanSub` substitution on a `String`. -/
def runSub (f : Option Char → List Char → Option (List Char × Nat)) (s : String) : String :=
  ⟨scanSub f s.data.length none s.data⟩

/-- Split a character list at every separator character, keeping empty
pieces (Python `str.split(sep)` for a one-character separator). -/
def splitChImpl (sep : Char) : List Char → List Char → List (List Char)
  | acc, [] => [acc.reverse]
  | acc, c :: rest =>
    if c = sep then acc.reverse :: splitChImpl sep [] rest
    else splitChImpl sep (c :: acc) rest

/-- Python `str.split('+')` and friends. -/
def pySplitOn (s : String) (sep : Char) : List String :=
  (splitChImpl sep [] s.data).map (fun l => (⟨l⟩ : String))

/-- Python `str.split()` (split on whitespace runs, dropping empty pieces). -/
def pySplit (s : String) : List String :=
  (splitChImpl ' ' [] ((s.data.map (fun c => if isWs c then ' ' else c)))).map
      (fun l => (⟨l⟩ : String))
    |>.filter (fun w => w ≠ "")

/-- Python `sep.join(xs)` for string lists. -/
def pyJoin (sep : String) : List String → String
  | [] => ""
  | [x] => x
  | x :: y :: rest => x ++ sep ++ pyJoin sep (y :: rest)

/-! ## Rule tables (the literal lookup data of the source) -/

/-- ENCODED_TOKEN_MAP (ordered as the source dict). -/
def ENCODED_TOKEN_MAP : List (String × String) :=
  [("__ING0024__", "vita"),
   ("__ING0035__", ""),
   ("__ING0055__", "iron")]

/-- GARBAGE_LIST. -/
def GARBAGE_LIST : List String :=
  ["invalid", "test", "unknown", "no active ingredient", "pending", "deleted",
   "n/a", "not available", "natural source", "mixed",
   "coming soon", "special", "bitten", "mental",
   "herbal formula", "regurgitation milk formula", "gasmin odor",
   "ethyhexyl", "stearly alcohol", "silicones",
   "glycerol stearate", "octadeceny ammonium",
   "distearoylethyl hydroxyethylmonium methosulfate",
   "capramidopropylbetaine", "capryl", "cocoamidopropyl betaine",
   "water", "aqua",
   "dr ey t", "dr ey",
   "gereinigter honig", "selected theraputically active",
   "theraputically active", "gereinigter", "honig",
   "selected theraputically",
   "vitamins", "vita", "350m"]

/-- GARBAGE_EXACT = set(x.strip().lower() for x in GARBAGE_LIST). -/
def GARBAGE_EXACT : List String :=
  GARBAGE_LIST.map (fun x => pyLower (pyStrip x))

/-- GARBAGE_TOKENS_EXACT. -/
def GARBAGE_TOKENS_EXACT : List String :=
  ["na", "n/a", "amin", "amins", "type", "formula",
   "other", "high", "pre", "mixed", "special",
   "as", "ivay", "potat", "len",
   "2",
   "vitamin"]

/-- NON_DRUG_TOKENS. -/
def NON_DRUG_TOKENS : List String :=
  ["q10", "coq10", "q 10",
   "royal jelly", "propolis", "bee pollen", "bee wax",
   "antioxidants", "antioxidant",
   "green tea extract", "grape seed extract", "pine bark extract",
   "ginkgo biloba", "ginseng",
   "honey", "beeswax", "aloe vera", "aloe",
   "herbal extract", "plant extract", "natural extract",
   "amino acids blend", "protein blend", "mineral blend",
   "turmeric", "curcumin", "ginger", "ginger extract",
   "garlic", "garlic extract", "garlic powder",
   "cinnamon", "cinnamon extract",
   "black seed", "black seed oil", "nigella sativa",
   "evening primrose", "evening primrose oil",
   "flaxseed", "flaxseed oil", "fish oil",
   "peppermint", "peppermint oil",
   "chamomile", "chamomile extract",
   "echinacea", "valerian", "ashwagandha",
   "msm", "methylsulfonylmethane",
   "lutein", "zeaxanthin", "lycopene", "astaxanthin",
   "resveratrol", "quercetin",
   "spirulina", "chlorella",
   "milk thistle"]

/-- SPELL_FIX, already arranged in the order Python's
`sorted(SPELL_FIX.items(), key=lambda x: -len(x[0]))` produces: stable
sort by decreasing key length, ties in dict insertion order. -/
def SPELL_FIX_ORDERED : List (String × String) :=
  [("benzylpenicillin sodiium", "benzylpenicillin sodium"),
   ("cholorohexidine", "chlorhexidine"),
   ("immunoglobulins", "immunoglobulin"),
   ("chlorohexidine", "chlorhexidine"),
   ("nitrofurantion", "nitrofurantoin"),
   ("chlorohexidin", "chlorhexidine"),
   ("macrophages", "macrophage"),
   ("diclofienac", "diclofenac"),
   ("panthenoll", "panthenol"),
   ("pilocarpin", "pilocarpine"),
   ("sildeanfil", "sildenafil"),
   ("macrofage", "macrophage"),
   ("olanzapin", "olanzapine"),
   ("sindalfil", "sildenafil"),
   ("pantheno", "panthenol"),
   ("digoxine", "digoxin")]

/-- SPELL_FIX.values() (dict order). -/
def SPELL_FIX_VALUES : List String :=
  ["benzylpenicillin sodium", "chlorhexidine", "chlorhexidine", "chlorhexidine",
   "nitrofurantoin", "immunoglobulin", "panthenol", "panthenol", "pilocarpine",
   "macrophage", "macrophage", "olanzapine", "diclofenac", "sildenafil",
   "sildenafil", "digoxin"]

/-- The expansion text shared by the two b-complex replacements. -/
def B_COMPLEX_EXPANSION : String :=
  "thiamine + riboflavin + niacin + pantothenic acid + pyridoxine + biotin + folic acid + cobalamin"

/-- PLAIN_REPLACEMENTS (ordered as the source dict). -/
def PLAIN_REPLACEMENTS : List (String × String) :=
  [("vit.", "vitamin "),
   ("vitamin b complex", B_COMPLEX_EXPANSION),
   ("b complex", B_COMPLEX_EXPANSION)]

/-- The word/replacement pairs of `BVITAMIN_REGEX` after its first entry
(the first entry, `\bvit\b\.?`, is handled by a dedicated scanner). -/
def BVITAMIN_WORDS : List (String × String) :=
  [("b12", "cobalamin"),
   ("b9", "folic acid"),
   ("b7", "biotin"),
   ("b6", "pyridoxine"),
   ("b5", "pantothenic acid"),
   ("b3", "niacin"),
   ("b2", "riboflavin"),
   ("b1", "thiamine")]

/-- KNOWN_INGREDIENT_KEYWORDS. -/
def KNOWN_INGREDIENT_KEYWORDS : List String :=
  ["vitamin", "acid", "calcium", "magnesium", "zinc", "iron", "sodium",
   "potassium", "chloride", "oxide", "hydrochloride", "sulfate", "phosphate",
   "gluconate", "citrate", "acetate", "lactate", "carbonate", "nitrate",
   "immunoglobulin", "albumin", "insulin", "heparin", "factor", "hormone",
   "enzyme", "extract", "compound", "complex", "analog", "analogue",
   "colony", "stimulating", "granulocyte", "macrophage", "ketoanalogue",
   "histidine", "lysine", "threonine", "tryptophan", "tyrosine", "amino",
   "iodo", "chloro", "hydroxy", "quinoline", "biotin", "niacin", "riboflavin",
   "pantothenic", "pyridoxine", "thiamine", "cobalamin", "folic", "selenium",
   "manganese", "copper", "boron", "chromium", "molybdenum", "fluoride",
   "iodochlorohydroxyquinoline", "panthenol", "pilocarpine", "omega",
   "retinol", "tocopherol", "ascorbic", "cholecalciferol", "ergocalciferol",
   "menadione", "phytomenadione", "alpha", "beta", "gamma", "delta",
   "methionine", "cysteine", "arginine", "leucine", "isoleucine", "valine",
   "alanine", "glycine", "proline", "serine", "glutamine", "asparagine",
   "aspartate", "glutamate", "phenylalanine",
   "coenzyme", "ubiquinone", "carnitine", "taurine", "inositol", "choline",
   "lipoic", "rutin", "hesperidin", "quercetin", "flavonoid",
   "glucosamine", "chondroitin", "collagen", "hyaluronic",
   "probiotic", "prebiotic", "lactobacillus", "bifidobacterium",
   "interferon", "erythropoietin", "filgrastim", "pegfilgrastim",
   "antitoxin", "antivenom", "vaccine",
   "paracetamol", "acetaminophen", "ibuprofen", "aspirin", "caffeine",
   "codeine", "morphine", "tramadol", "diclofenac", "naproxen",
   "amoxicillin", "ampicillin", "penicillin", "cephalexin", "azithromycin",
   "ciprofloxacin", "metronidazole", "doxycycline", "tetracycline",
   "metformin", "glibenclamide", "atorvastatin", "simvastatin",
   "amlodipine", "enalapril", "losartan", "hydrochlorothiazide", "furosemide",
   "omeprazole", "ranitidine", "metoclopramide", "domperidone", "ondansetron",
   "salbutamol", "terbutaline", "beclomethasone", "fluticasone", "ipratropium",
   "prednisolone", "dexamethasone", "hydrocortisone", "betamethasone",
   "loratadine", "cetirizine", "diphenhydramine", "promethazine",
   "diazepam", "alprazolam", "lorazepam", "clonazepam", "phenobarbital",
   "haloperidol", "risperidone", "olanzapine", "quetiapine", "aripiprazole",
   "fluoxetine", "sertraline", "paroxetine", "escitalopram", "venlafaxine",
   "levothyroxine", "propylthiouracil", "methimazole",
   "warfarin", "enoxaparin", "clopidogrel",
   "cyclosporine", "tacrolimus", "mycophenolate", "azathioprine",
   "methotrexate", "cyclophosphamide", "doxorubicin", "fluorouracil",
   "sildenafil", "tadalafil", "testosterone", "estradiol", "progesterone",
   "spironolactone", "dandelion", "silymarin", "iodine",
   "poliomyelitis", "inactivated", "attenuated", "poliovirus",
   "willebrand", "von"]

/-- COSMETIC_TERMS. -/
def COSMETIC_TERMS : List String :=
  ["cream", "shampoo", "lotion", "styling", "smooth", "hair", "gel",
   "serum", "moisturizer", "conditioner", "spray", "foam", "mask",
   "scrub", "toner", "cleanser", "balm", "wax", "polish",
   "blush", "foundation", "lipstick", "mascara", "perfume",
   "fragrance", "deodorant", "sunscreen", "exfoliant", "primer",
   "scalp", "skin", "whitening", "regen", "matrix", "photostable",
   "uva", "uvb"]

/-- VAGUE_CATEGORY_EXACT. -/
def VAGUE_CATEGORY_EXACT : List String :=
  ["minerals", "elements", "omega", "ors", "carbohydrates",
   "proteins", "multivitamin", "multivitamins",
   "vitamins and minerals", "vitamins", "trace elements"]

/-- TRUNCATED_TOKENS. -/
def TRUNCATED_TOKENS : List String :=
  ["ethinyl", "mono", "hydro", "peg", "poly",
   "micronized alpha", "micronized", "dehydro", "desoxy", "nor"]

/-- The alternatives of the regex `^(hydro|mono|poly|peg|dehydro|desoxy|nor)$`
inside `has_truncated_token`. -/
def TRUNCATED_REGEX_WORDS : List String :=
  ["hydro", "mono", "poly", "peg", "dehydro", "desoxy", "nor"]

/-- SHORT_VALID_TOKENS. -/
def SHORT_VALID_TOKENS : List String :=
  ["a", "c", "d", "e", "k",
   "d2", "d3", "k1", "k2", "k3",
   "b1", "b2", "b3", "b5", "b6", "b7", "b9", "b12",
   "ors", "rna", "dna", "hiv", "ige", "igg", "iga", "igm",
   "atp", "adp", "nad", "gmp", "amp",
   "viii", "vii", "vi", "iv", "xii", "xiii"]

/-- VALID_VITAMIN_LETTERS. -/
def VALID_VITAMIN_LETTERS : List String :=
  ["a", "c", "d", "e", "k",
   "d2", "d3", "k1", "k2", "k3",
   "b1", "b2", "b3", "b5", "b6", "b7", "b9", "b12"]

/-- The word alternatives of `_UNSEP` (the look-ahead vocabulary of
`UNSEPARATED_SPLIT_PATTERN`), in source order. -/
def UNSEP_WORDS : List String :=
  ["calcium", "magnesium", "zinc", "iron", "selenium", "manganese", "copper",
   "boron", "chromium", "molybdenum", "fluoride", "biotin", "niacin",
   "riboflavin", "thiamine", "pyridoxine", "pantothenic", "folic", "cobalamin",
   "lysine", "histidine", "threonine", "tryptophan", "tyrosine", "iodine",
   "iodo", "granulocyte", "albumin", "insulin", "heparin", "collagen",
   "glucosamine", "chondroitin", "carnitine", "taurine", "inositol", "choline",
   "ubiquinone", "rutin", "hesperidin", "quercetin", "lipoic", "coenzyme",
   "lactobacillus", "bifidobacterium", "probiotic", "prebiotic",
   "paracetamol", "acetaminophen", "ibuprofen", "aspirin", "caffeine",
   "codeine", "amoxicillin", "ampicillin", "penicillin", "ciprofloxacin",
   "metronidazole", "metformin", "atorvastatin", "simvastatin", "amlodipine",
   "enalapril", "losartan", "omeprazole", "ranitidine", "ondansetron",
   "salbutamol", "terbutaline", "prednisolone", "dexamethasone",
   "hydrocortisone", "betamethasone", "loratadine", "cetirizine", "diazepam",
   "alprazolam", "fluoxetine", "sertraline", "levothyroxine", "warfarin",
   "cyclosporine", "methotrexate", "sildenafil", "testosterone", "estradiol",
   "progesterone", "spironolactone", "dandelion", "silymarin", "retinol",
   "tocopherol", "ascorbic", "cholecalciferol", "menadione"]

/-- The unit alternatives of `DOSE_UNIT_PATTERN` and
`LEADING_NUMBER_PATTERN`, in alternation order; `units?`, `tabs?` and
`caps?` are expanded into their greedy order (`s` variant first), and the
two-token alternative `i\s*u` is handled separately by the matchers. -/
def DOSE_UNITS : List String :=
  ["mg", "g", "gm", "mcg", "µg", "ug", "iu"]

/-- The unit alternatives that come after `i\s*u` in the alternation. -/
def DOSE_UNITS_TAIL : List String :=
  ["miu", "ml", "%", "units", "unit", "tabs", "tab", "caps", "cap", "amp", "vial"]

/-- Set _TYPE_MEDICAL_CONTEXT (local to `normalize_text`). -/
def TYPE_MEDICAL_CONTEXT : List String :=
  ["poliomyelitis", "poliovirus", "vaccine", "hepatitis",
   "diphtheria", "pertussis", "meningitis", "rotavirus",
   "herpes", "adenovirus", "coronavirus", "influenza",
   "dengue", "rabies", "typhoid", "cholera",
   "collagen", "diabetes"]

/-! ## Step 0 — encoded-token decoder (`decode_encoded_tokens`) -/

/-- Body of the placeholder regex `__[A-Z]+\d+__` after the two leading
underscores: a nonempty run of capitals, a nonempty run of digits, then
`__`; returns the number of characters consumed.  Maximal-run parsing is
equivalent to the regex's greedy backtracking because the character
classes `[A-Z]`, `\d` and `_` are pairwise disjoint.
-/
def parseBody (t : List Char) : Option Nat :=
  let up := t.takeWhile isUpperAZ
  if up = [] then none
  else
    let t1 := t.dropWhile isUpperAZ
    let dg := t1.takeWhile Char.isDigit
    if dg = [] then none
    else
      match t1.dropWhile Char.isDigit with
      | '_' :: '_' :: _ => some (up.length + dg.length + 2)
      | _ => none

/-- Try to match `__[A-Z]+\d+__` at the head of the text; on success
return the total number of characters consumed. -/
def matchPl : List Char → Option Nat
  | c1 :: c2 :: t => if c1 = '_' ∧ c2 = '_' then (parseBody t).map (· + 2) else none
  | _ => none

/-- The final pass of the decoder, `re.sub(r'__[A-Z]+\d+__', ' ', text)`:
leftmost non-overlapping matches are replaced by a single space, and
scanning resumes after each match.  Fuel as in `replaceAll`. -/
def wipePl : Nat → List Char → List Char
  | _, [] => []
  | 0, l => l
  | fuel + 1, c :: rest =>
    match matchPl (c :: rest) with
    | some k => ' ' :: wipePl fuel ((c :: rest).drop k)
    | none => c :: wipePl fuel rest

/-- One `text.replace(token, replacement)` pass. -/
def replaceTok (pat rep : String) (l : List Char) : List Char :=
  replaceAll pat.data rep.data l.length l

/-- The generic placeholder pass with its standard fuel. -/
def wipeAll (l : List Char) : List Char :=
  wipePl l.length l

/-- decode_encoded_tokens on raw character data: the three mapped
placeholders are replaced first (dict order), then every remaining
placeholder-shaped token becomes a space. -/
def decodeChars (l : List Char) : List Char :=
  wipeAll (replaceTok "__ING0055__" "iron"
    (replaceTok "__ING0035__" "" (replaceTok "__ING0024__" "vita" l)))

/-- One raw input cell: either a missing value (`None`/`NaN`), a text
value, or any other non-text value.  `pd.isna` is true exactly on
`null`; `isinstance(text, str)` is true exactly on `text`. -/
inductive Raw where
  | null : Raw
  | text (s : String) : Raw
  | other : Raw
deriving DecidableEq, Repr

/-- decode_encoded_tokens: non-string input passes through unchanged. -/
def decode_encoded_tokens : Raw → Raw
  | .text s => .text ⟨decodeChars s.data⟩
  | v => v

/-! ## R4 — spell correction (`apply_spell_fix`) -/

/-- Matcher for `re.sub(r'\b' + re.escape(wrong) + r'\b', right, text)`
where `wrong` begins and ends with word characters (true of every
spell-fix key, b-vitamin code and protected word in the source). -/
def wordSubF (w r : List Char) (prev : Option Char) (l : List Char) :
    Option (List Char × Nat) :=
  if w ≠ [] ∧ (w.isPrefixOf l && nwBefore prev && nwAfter (l.drop w.length)) then
    some (r, w.length - 1)
  else none

/-- One word-boundary substitution pass over a string. -/
def subWord (w r s : String) : String :=
  runSub (wordSubF w.data r.data) s

/-- apply_spell_fix: one word-boundary pass per (wrong, right) pair, in
decreasing key-length order.  (The source's `if wrong in text` guard only
skips passes that could not match anyway.) -/
def apply_spell_fix (s : String) : String :=
  SPELL_FIX_ORDERED.foldl (fun t p => subWord p.1 p.2 t) s

/-- The plain replacements loop of `normalize_text`
(`if wrong in text: text = text.replace(wrong, right)`). -/
def apply_plain_replacements (s : String) : String :=
  PLAIN_REPLACEMENTS.foldl
    (fun t p => if containsStr t p.1 then replaceStr t p.1 p.2 else t) s

/-- Matcher for the first `BVITAMIN_REGEX` entry, `\bvit\b\.?` →
`"vitamin "`: the word `vit` (boundary after the `t`, so the next
character is not a word character), plus an optional dot. -/
def vitDotF (prev : Option Char) (l : List Char) : Option (List Char × Nat) :=
  if "vit".data.isPrefixOf l && nwBefore prev && nwAfter (l.drop 3) then
    match l.drop 3 with
    | '.' :: _ => some ("vitamin ".data, 3)
    | _ => some ("vitamin ".data, 2)
  else none

/-- The `BVITAMIN_REGEX` loop: `\bvit\b\.?` first, then the eight
word-boundary code rewrites, longest code first. -/
def apply_bvitamin (s : String) : String :=
  BVITAMIN_WORDS.foldl (fun t p => subWord p.1 p.2 t) (runSub vitDotF s)

/-! ## R11 — omega normalization (`normalize_omega`) -/

/-- Collect the `(?:-\d+)+` groups of the multi-omega regex: returns the
digit groups and the number of characters consumed. -/
def dashGroups : Nat → List Char → List (List Char) × Nat
  | 0, _ => ([], 0)
  | fuel + 1, l =>
    match l with
    | '-' :: rest =>
      let d := rest.takeWhile Char.isDigit
      if d = [] then ([], 0)
      else
        let (gs, n) := dashGroups fuel (rest.drop d.length)
        (d :: gs, 1 + d.length + n)
    | _ => ([], 0)

/-- Python ' + '.join('omega ' + n for n in nums). -/
def omegaJoin (nums : List (List Char)) : List Char :=
  List.intercalate " + ".data (nums.map (fun g => "omega ".data ++ g))

/-- Matcher for `\bomega-(\d+(?:-\d+)+)\b` (function replacement
`expand_omega_multi`).  Greedy group collection; if the trailing `\b`
fails after the last group, the regex backtracks by one group (the
character after the previous group is then `-`, a non-word character, so
the boundary holds). -/
def omegaMultiF (prev : Option Char) (l : List Char) : Option (List Char × Nat) :=
  if "omega-".data.isPrefixOf l && nwBefore prev then
    let t := l.drop 6
    let d0 := t.takeWhile Char.isDigit
    if d0 = [] then none
    else
      let (gs, n) := dashGroups t.length (t.drop d0.length)
      if gs = [] then none
      else
        if nwAfter (t.drop (d0.length + n)) then
          some (omegaJoin (d0 :: gs), 6 + d0.length + n - 1)
        else
          match gs.getLast? with
          | none => none
          | some lastG =>
            let gs' := gs.dropLast
            if gs' = [] then none
            else
              let n' := n - 1 - lastG.length
              some (omegaJoin (d0 :: gs'), 6 + d0.length + n' - 1)
  else none

/-- Matcher for `\bomega-(\d+)\b` → `omega \1`. -/
def omegaDashF (prev : Option Char) (l : List Char) : Option (List Char × Nat) :=
  if "omega-".data.isPrefixOf l && nwBefore prev then
    let d := (l.drop 6).takeWhile Char.isDigit
    if d ≠ [] ∧ nwAfter (l.drop (6 + d.length)) then
      some ("omega ".data ++ d, 6 + d.length - 1)
    else none
  else none

/-- Collect the `(?:\s+\d+)+` groups of the spaced-omega regex: returns
`(whitespace length, digits)` pairs and the characters consumed. -/
def wsGroups : Nat → List Char → List (Nat × List Char) × Nat
  | 0, _ => ([], 0)
  | fuel + 1, l =>
    let w := l.takeWhile isWs
    if w = [] then ([], 0)
    else
      let t := l.drop w.length
      let d := t.takeWhile Char.isDigit
      if d = [] then ([], 0)
      else
        let (gs, n) := wsGroups fuel (t.drop d.length)
        ((w.length, d) :: gs, w.length + d.length + n)

/-- expand_omega_spaced on the collected digit groups. -/
def omegaSpacedOut (nums : List (List Char)) : List Char :=
  match nums with
  | [] => []
  | [n] => "omega ".data ++ n
  | _ => omegaJoin nums

/-- Matcher for `\bomega\s+(\d+(?:\s+\d+)+)\b` (function replacement
`expand_omega_spaced`), with the same one-group backtrack as
`omegaMultiF` when the trailing `\b` fails. -/
def omegaSpacedF (prev : Option Char) (l : List Char) : Option (List Char × Nat) :=
  if "omega".data.isPrefixOf l && nwBefore prev then
    let t := l.drop 5
    let w1 := t.takeWhile isWs
    if w1 = [] then none
    else
      let t1 := t.drop w1.length
      let d0 := t1.takeWhile Char.isDigit
      if d0 = [] then none
      else
        let (gs, n) := wsGroups t1.length (t1.drop d0.length)
        if gs = [] then none
        else
          if nwAfter (t1.drop (d0.length + n)) then
            some (omegaSpacedOut (d0 :: gs.map Prod.snd),
                  5 + w1.length + d0.length + n - 1)
          else
            match gs.getLast? with
            | none => none
            | some lastG =>
              let gs' := gs.dropLast
              if gs' = [] then none
              else
                let n' := n - lastG.1 - lastG.2.length
                some (omegaSpacedOut (d0 :: gs'.map Prod.snd),
                      5 + w1.length + d0.length + n' - 1)
  else none

/-- normalize_omega: the three omega passes in source order. -/
def normalize_omega (s : String) : String :=
  runSub omegaSpacedF (runSub omegaDashF (runSub omegaMultiF s))

/-! ## The remaining rewrite stages of `normalize_text` -/

/-- Matcher for `\bvit\.?\s+` → `"vitamin "` (line 483 of the source):
the word-start `vit`, an optional dot, then mandatory whitespace (all
consumed). -/
def vitWsF (prev : Option Char) (l : List Char) : Option (List Char × Nat) :=
  if "vit".data.isPrefixOf l && nwBefore prev then
    let (dot, t) :=
      match l.drop 3 with
      | '.' :: r => (1, r)
      | r => (0, r)
    let w := t.takeWhile isWs
    if w = [] then none
    else some ("vitamin ".data, 3 + dot + w.length - 1)
  else none

/-- Matcher for `\bvitamin\s+amins?\b` → `vitamin` (line 486). -/
def vitAminF (prev : Option Char) (l : List Char) : Option (List Char × Nat) :=
  if "vitamin".data.isPrefixOf l && nwBefore prev then
    let t := l.drop 7
    let w := t.takeWhile isWs
    if w = [] then none
    else
      let t1 := t.drop w.length
      if "amin".data.isPrefixOf t1 then
        match t1.drop 4 with
        | 's' :: rest => if nwAfter rest then some ("vitamin".data, 7 + w.length + 5 - 1) else none
        | rest => if nwAfter rest then some ("vitamin".data, 7 + w.length + 4 - 1) else none
      else none
  else none

/-- Matcher for `\bamins?\b` → `''` (line 487 and the per-token cleanup
`\bamin[s]?\b` of `clean_ingredient_list`, which is the same pattern). -/
def aminF (prev : Option Char) (l : List Char) : Option (List Char × Nat) :=
  if "amin".data.isPrefixOf l && nwBefore prev then
    match l.drop 4 with
    | 's' :: rest => if nwAfter rest then some ([], 4) else none
    | rest => if nwAfter rest then some ([], 3) else none
  else none

/-- Matcher for `\(([^)]*)\)` → `' + \1'` (line 490): a parenthesised
group becomes a separated segment. -/
def bracketF (_ : Option Char) (l : List Char) : Option (List Char × Nat) :=
  match l with
  | '(' :: rest =>
    let content := rest.takeWhile (fun c => c ≠ ')')
    match rest.drop content.length with
    | ')' :: _ => some (" + ".data ++ content, content.length + 1)
    | _ => none
  | _ => none

/-- Matcher for `(?<!\+)\s+(vitamin\s)` → `' + \1'` (line 493): insert a
separator before a `vitamin` that follows bare whitespace. -/
def plusVitaminF (prev : Option Char) (l : List Char) : Option (List Char × Nat) :=
  match l with
  | c :: _ =>
    if isWs c && prev ≠ some '+' then
      let w := l.takeWhile isWs
      let t := l.drop w.length
      if "vitamin".data.isPrefixOf t then
        match t.drop 7 with
        | wc :: _ =>
          if isWs wc then some (" + vitamin".data ++ [wc], w.length + 8 - 1) else none
        | [] => none
      else none
    else none
  | [] => none

/-- Matcher for `UNSEPARATED_SPLIT_PATTERN`,
`(?<=[a-z\d])\s+(?=(word1|...)\b)` → `' + '` (line 496): whitespace
preceded by a lowercase letter or digit and followed (look-ahead, not
consumed) by a known unseparated ingredient word. -/
def unsepF (prev : Option Char) (l : List Char) : Option (List Char × Nat) :=
  match prev, l with
  | some p, c :: _ =>
    if (isLowerAZ p || p.isDigit) && isWs c then
      let w := l.takeWhile isWs
      let t := l.drop w.length
      if UNSEP_WORDS.any (fun u => u.data.isPrefixOf t && nwAfter (t.drop u.length)) then
        some (" + ".data, w.length - 1)
      else none
    else none
  | _, _ => none

/-- The separator alternatives of line 499, in alternation order. -/
def SEP_TOKENS : List String :=
  ["--", "–", "-", "/", ",", ";", "\\", "&", " and ", " with ", "&", "+"]

/-- Matcher for the separator-unification regex (line 499): the first
alternative that matches wins, as in Python's alternation. -/
def sepF (_ : Option Char) (l : List Char) : Option (List Char × Nat) :=
  match SEP_TOKENS.find? (fun t => t.data.isPrefixOf l) with
  | some t => some (" + ".data, t.length - 1)
  | none => none

/-! ## R3 — dosage stripping (lines 502-534) -/

/-- Match `\btype\s+\d+\b` at the head of the text; returns the number of
characters consumed. -/
def typeNumAt (prev : Option Char) (l : List Char) : Option Nat :=
  if "type".data.isPrefixOf l && nwBefore prev then
    let t := l.drop 4
    let w := t.takeWhile isWs
    if w = [] then none
    else
      let d := (t.drop w.length).takeWhile Char.isDigit
      if d = [] then none
      else
        if nwAfter (t.drop (w.length + d.length)) then some (4 + w.length + d.length)
        else none
  else none

/-- The sentinel key `"__TYPEPROT" + str(i) + "__"`. -/
def typeKey (i : Nat) : List Char :=
  "__TYPEPROT".data ++ (Nat.repr i).data ++ "__".data

/-- re.sub(r'\btype\s+\d+\b', _protect_type_smart, text): when the
entry has medical `type` context, each match is replaced by a fresh
sentinel key and its text (`m.group(0).strip()`) is recorded in order;
otherwise each match becomes a single space and nothing is recorded. -/
def protectTypes (ctx : Bool) : Nat → Nat → Option Char → List Char →
    List Char × List (List Char)
  | _, _, _, [] => ([], [])
  | 0, _, _, l => (l, [])
  | fuel + 1, idx, prev, c :: rest =>
    match typeNumAt prev (c :: rest) with
    | some k =>
      if ctx then
        let span := trimCh ((c :: rest).take k)
        let (out, acc) :=
          protectTypes ctx fuel (idx + 1) ((c :: rest).get? (k - 1)) ((c :: rest).drop k)
        (typeKey idx ++ out, span :: acc)
      else
        let (out, acc) :=
          protectTypes ctx fuel idx ((c :: rest).get? (k - 1)) ((c :: rest).drop k)
        (' ' :: out, acc)
    | none =>
      let (out, acc) := protectTypes ctx fuel idx (some c) rest
      (c :: out, acc)

/-- Restore the protected `type N` spans (`text.replace(key, val)` in
dict order). -/
def restoreTypes : Nat → List (List Char) → List Char → List Char
  | _, [], l => l
  | i, s :: rest, l => restoreTypes (i + 1) rest (replaceAll (typeKey i) s l.length l)

/-- Case-insensitive prefix test (ASCII model of `re.IGNORECASE`); the
pattern is given in lowercase. -/
def ciPrefixOf : List Char → List Char → Bool
  | [], _ => true
  | _ :: _, [] => false
  | p :: ps, c :: cs => p = Char.toLower c && ciPrefixOf ps cs

/-- Try one literal unit alternative of `DOSE_UNIT_PATTERN` at the head
of the text, including the trailing `\b`. -/
def unitAt (u : List Char) (t : List Char) : Option Nat :=
  if ciPrefixOf u t then
    match u.getLast? with
    | some lastc => if boundaryAfter lastc (t.drop u.length) then some u.length else none
    | none => none
  else none

/-- Try the two-token unit alternative `i\s*u` (with trailing `\b`). -/
def iuAt (t : List Char) : Option Nat :=
  match t with
  | c :: rest =>
    if Char.toLower c = 'i' then
      let w := rest.takeWhile isWs
      match rest.drop w.length with
      | u :: rest1 =>
        if Char.toLower u = 'u' && boundaryAfter u rest1 then some (1 + w.length + 1)
        else none
      | [] => none
    else none
  | [] => none

/-- The full unit alternation of `DOSE_UNIT_PATTERN`, tried in pattern
order (first match wins, later alternatives are tried when an earlier one
fails its boundary, as regex backtracking does). -/
def doseUnitAt (t : List Char) : Option Nat :=
  match DOSE_UNITS.findSome? (fun u => unitAt u.data t) with
  | some n => some n
  | none =>
    match iuAt t with
    | some n => some n
    | none => DOSE_UNITS_TAIL.findSome? (fun u => unitAt u.data t)

/-- Matcher for `DOSE_UNIT_PATTERN`,
`\d+(\.\d+)?\s*(mg|g|...|amp|vial)\b` → `' '` (line 520). -/
def doseF (_ : Option Char) (l : List Char) : Option (List Char × Nat) :=
  match l with
  | c :: _ =>
    if c.isDigit then
      let d := l.takeWhile Char.isDigit
      let t1 := l.drop d.length
      let (fracLen, t2) :=
        match t1 with
        | '.' :: r =>
          let fd := r.takeWhile Char.isDigit
          if fd = [] then (0, t1) else (1 + fd.length, r.drop fd.length)
        | _ => (0, t1)
      let w := t2.takeWhile isWs
      match doseUnitAt (t2.drop w.length) with
      | some un => some ([' '], d.length + fracLen + w.length + un - 1)
      | none => none
    else none
  | [] => none

/-- Matcher for `\b\d{2,}\b` → `' '` (line 521). -/
def bigNumF (prev : Option Char) (l : List Char) : Option (List Char × Nat) :=
  match l with
  | c :: _ =>
    if c.isDigit && nwBefore prev then
      let d := l.takeWhile Char.isDigit
      if d.length ≥ 2 && nwAfter (l.drop d.length) then some ([' '], d.length - 1)
      else none
    else none
  | [] => none

/-- Check `(?:\s+\d+)*\s*` followed by end-of-string, for the
end-anchored trailing-numbers regex. -/
def tailNumsCheck : Nat → List Char → Bool
  | _, [] => true
  | 0, _ => false
  | fuel + 1, l =>
    let w := l.takeWhile isWs
    if w = [] then false
    else
      let t := l.drop w.length
      if t = [] then true
      else
        let d := t.takeWhile Char.isDigit
        if d = [] then false
        else tailNumsCheck fuel (t.drop d.length)

/-- Matcher for `(?<=[a-z])\s+\d+(?:\s+\d+)*\s*$` → `' '` (line 522):
trailing digit groups after a letter, all the way to the end. -/
def trailNumsF (prev : Option Char) (l : List Char) : Option (List Char × Nat) :=
  match prev, l with
  | some p, c :: _ =>
    if isLowerAZ p && isWs c then
      let w := l.takeWhile isWs
      let t := l.drop w.length
      let d := t.takeWhile Char.isDigit
      if d ≠ [] ∧ tailNumsCheck t.length (t.drop d.length) then
        some ([' '], l.length - 1)
      else none
    else none
  | _, _ => none

/-- Matcher for `(?<=[a-z])\s+0\s+\d+` → `' '` (line 523). -/
def zeroPairF (prev : Option Char) (l : List Char) : Option (List Char × Nat) :=
  match prev, l with
  | some p, c :: _ =>
    if isLowerAZ p && isWs c then
      let w := l.takeWhile isWs
      match l.drop w.length with
      | '0' :: t =>
        let w2 := t.takeWhile isWs
        if w2 = [] then none
        else
          let d := (t.drop w2.length).takeWhile Char.isDigit
          if d = [] then none
          else some ([' '], w.length + 1 + w2.length + d.length - 1)
      | _ => none
    else none
  | _, _ => none

/-- Matcher for `(?<=[a-z])\s+\d\s+\d+\b` → `' '` (line 524). -/
def digitPairF (prev : Option Char) (l : List Char) : Option (List Char × Nat) :=
  match prev, l with
  | some p, c :: _ =>
    if isLowerAZ p && isWs c then
      let w := l.takeWhile isWs
      match l.drop w.length with
      | d0 :: t =>
        if d0.isDigit then
          let w2 := t.takeWhile isWs
          if w2 = [] then none
          else
            let d := (t.drop w2.length).takeWhile Char.isDigit
            if d ≠ [] ∧ nwAfter (t.drop (w2.length + d.length)) then
              some ([' '], w.length + 1 + w2.length + d.length - 1)
            else none
        else none
      | [] => none
    else none
  | _, _ => none

/-- Matcher for `\bomega\s+(\d)\b` → `omega__OMGPROT__\1` (line 527). -/
def omegaProtF (prev : Option Char) (l : List Char) : Option (List Char × Nat) :=
  if "omega".data.isPrefixOf l && nwBefore prev then
    let t := l.drop 5
    let w := t.takeWhile isWs
    if w = [] then none
    else
      match t.drop w.length with
      | d :: rest =>
        if d.isDigit && nwAfter rest then some ("omega__OMGPROT__".data ++ [d], 5 + w.length)
        else none
      | [] => none
  else none

/-- Matcher for `\btype\s+(\d)\b` → `type__TYPROT__\1` (line 528). -/
def typeProtF (prev : Option Char) (l : List Char) : Option (List Char × Nat) :=
  if "type".data.isPrefixOf l && nwBefore prev then
    let t := l.drop 4
    let w := t.takeWhile isWs
    if w = [] then none
    else
      match t.drop w.length with
      | d :: rest =>
        if d.isDigit && nwAfter rest then some ("type__TYPROT__".data ++ [d], 4 + w.length)
        else none
      | [] => none
  else none

/-- Matcher for `(?<=[a-z])\s+\d\b` → `' '` (line 529). -/
def loneDigitF (prev : Option Char) (l : List Char) : Option (List Char × Nat) :=
  match prev, l with
  | some p, c :: _ =>
    if isLowerAZ p && isWs c then
      let w := l.takeWhile isWs
      match l.drop w.length with
      | d :: rest => if d.isDigit && nwAfter rest then some ([' '], w.length) else none
      | [] => none
    else none
  | _, _ => none

/-- Matcher for `[^a-z0-9+\s]` → `' '` (line 537). -/
def specialF (_ : Option Char) (l : List Char) : Option (List Char × Nat) :=
  match l with
  | c :: _ =>
    if !(isLowerAZ c || c.isDigit || c = '+' || isWs c) then some ([' '], 0) else none
  | [] => none

/-- Matcher for `\s+` → `' '` (line 540). -/
def wsRunF (_ : Option Char) (l : List Char) : Option (List Char × Nat) :=
  match l with
  | c :: _ =>
    if isWs c then some ([' '], (l.takeWhile isWs).length - 1) else none
  | [] => none

/-- Matcher for `\s*\+\s*` → `' + '` (line 541). -/
def plusSpaceF (_ : Option Char) (l : List Char) : Option (List Char × Nat) :=
  let w1 := l.takeWhile isWs
  match l.drop w1.length with
  | '+' :: t =>
    let w2 := t.takeWhile isWs
    some (" + ".data, w1.length + 1 + w2.length - 1)
  | _ => none

/-- Python `text.strip('+ ')` (line 542). -/
def stripPlusSpace (s : String) : String :=
  ⟨((s.data.dropWhile (fun c => c = '+' || c = ' ')).reverse.dropWhile
      (fun c => c = '+' || c = ' ')).reverse⟩

/-! ## `normalize_text` -/

/-- The full ordered rewrite chain of `normalize_text` on an actual
string (the `pd.isna` / `isinstance` guard lives in `normalizeRaw`). -/
def normalizeStr (s : String) : Option String :=
  let t0 := pyStrip s
  if t0 = "" ∨ GARBAGE_EXACT.contains (pyLower t0) then none
  else
    let t := pyLower t0
    let t := apply_spell_fix t
    let t := apply_plain_replacements t
    let t := apply_bvitamin t
    let t := normalize_omega t
    let t := runSub vitWsF t
    let t := runSub vitAminF t
    let t := runSub aminF t
    let t := runSub bracketF t
    let t := runSub plusVitaminF t
    let t := runSub unsepF t
    let t := runSub sepF t
    let ctx := TYPE_MEDICAL_CONTEXT.any (fun kw => containsStr t kw)
    let (tc, spans) := protectTypes ctx t.data.length 0 none t.data
    let t := (⟨tc⟩ : String)
    let t := runSub doseF t
    let t := runSub bigNumF t
    let t := runSub trailNumsF t
    let t := runSub zeroPairF t
    let t := runSub digitPairF t
    let t := runSub omegaProtF t
    let t := runSub typeProtF t
    let t := runSub loneDigitF t
    let t := replaceStr t "omega__OMGPROT__" "omega "
    let t := replaceStr t "type__TYPROT__" "type "
    let t := (⟨restoreTypes 0 spans t.data⟩ : String)
    let t := runSub specialF t
    let t := pyStrip (runSub wsRunF t)
    let t := pyStrip (runSub plusSpaceF t)
    let t := stripPlusSpace t
    if t = "" then none else some t

/-- normalize_text on a raw cell: `None`/`NaN` and non-text input
normalize to `None` (the `pd.isna(text) or not isinstance(text, str)`
guard). -/
def normalize_text : Raw → Option String
  | .text s => normalizeStr s
  | _ => none

/-! ## Phrase classifiers -/

/-- is_garbage_token. -/
def is_garbage_token (token : String) : Bool :=
  let t := pyLower (pyStrip token)
  t = "" || t.length ≤ 2 || GARBAGE_EXACT.contains t || GARBAGE_TOKENS_EXACT.contains t
    || NON_DRUG_TOKENS.contains t
    || GARBAGE_EXACT.any (fun g => g.length ≥ 8 && containsStr t g)

/-- is_likely_garbage_phrase: at least three whitespace-separated words
and none of them contains any known-ingredient keyword as a substring. -/
def is_likely_garbage_phrase (text : String) : Bool :=
  let words := pySplit (pyLower text)
  words.length ≥ 3 &&
    ((words.filter (fun w => KNOWN_INGREDIENT_KEYWORDS.any (fun kw => containsStr w kw))).length
      = 0)

/-- is_cosmetic_entry: at least two distinct words of the entry belong
to the cosmetic-term set. -/
def is_cosmetic_entry (text : String) : Bool :=
  if text = "" then false
  else
    let words := (pySplit (pyLower text)).dedup
    (words.filter (fun w => COSMETIC_TERMS.contains w)).length ≥ 2

/-- is_vague_category. -/
def is_vague_category (text : String) : Bool :=
  if text = "" then false
  else
    let t := pyLower (pyStrip text)
    if VAGUE_CATEGORY_EXACT.contains t then true
    else
      let tokens := (pySplitOn t '+').map pyStrip
      (tokens.filter (fun tok => tok ≠ "")).all (fun tok => VAGUE_CATEGORY_EXACT.contains tok)

/-- has_truncated_token. -/
def has_truncated_token (parts : List String) : Bool :=
  parts.any (fun p =>
    let pl := pyLower (pyStrip p)
    TRUNCATED_TOKENS.contains pl || TRUNCATED_REGEX_WORDS.contains pl)

/-! ## R8 — unknown-token classification -/

/-- UNKNOWN_TOKEN_PATTERN, first branch: `^[a-z]{1,3}\d+$`. -/
def unknownShapeA (t : List Char) : Bool :=
  let ls := t.takeWhile isLowerAZ
  let rest := t.drop ls.length
  1 ≤ ls.length && ls.length ≤ 3 && rest ≠ [] && rest.all Char.isDigit

/-- UNKNOWN_TOKEN_PATTERN, second branch:
`^[a-z0-9]{1,3}\s[a-z0-9]{1,2}$`. -/
def unknownShapeB (t : List Char) : Bool :=
  let an := fun c => isLowerAZ c || c.isDigit
  let g1 := t.takeWhile an
  match t.drop g1.length with
  | wc :: t2 =>
    1 ≤ g1.length && g1.length ≤ 3 && isWs wc &&
      1 ≤ t2.length && t2.length ≤ 2 && t2.all an
  | [] => false

/-- UNKNOWN_TOKEN_PATTERN.match(t). -/
def unknownShape (t : String) : Bool :=
  unknownShapeA t.data || unknownShapeB t.data

/-- classify_token: returns `"valid"` or `"unknown"`. -/
def classify_token (token : String) : String :=
  let t := pyLower (pyStrip token)
  if t = "" then "valid"
  else if SHORT_VALID_TOKENS.contains t then "valid"
  else if "vitamin ".data.isPrefixOf t.data then "valid"
  else if KNOWN_INGREDIENT_KEYWORDS.any (fun kw => containsStr t kw) then "valid"
  else if SPELL_FIX_VALUES.contains t then "valid"
  else if unknownShape t then "unknown"
  else if t.length ≤ 3 && !SHORT_VALID_TOKENS.contains t then "unknown"
  else "valid"

/-! ## Token pipeline -/

/-- expand_vitamin_shortcuts. -/
def expand_vitamin_shortcuts (parts : List String) (original_text : String) : List String :=
  let has_vitamin := containsStr original_text "vitamin"
  parts.filterMap (fun p0 =>
    let p := pyStrip p0
    if p = "" then none
    else if "vitamin ".data.isPrefixOf p.data then some p
    else if has_vitamin && VALID_VITAMIN_LETTERS.contains p then some ("vitamin " ++ p)
    else some p)

/-- LEADING_NUMBER_PATTERN.match(first):
`^\s*[\d\s\.]+\s*(mg|g|...|vial)?\s*$` (IGNORECASE). -/
def leadingNumberMatch (s : String) : Bool :=
  let cls := fun c => c.isDigit || isWs c || c = '.'
  let p := s.data.takeWhile cls
  let rest := s.data.drop p.length
  p ≠ [] &&
    (rest = [] ||
      (DOSE_UNITS ++ DOSE_UNITS_TAIL).any (fun u =>
        ciPrefixOf u.data rest && (rest.drop u.length).all isWs) ||
      (match iuAt rest with
       | some n => (rest.drop n).all isWs
       | none => false))

/-- re.match(r'^\d+$', first). -/
def allDigitsMatch (s : String) : Bool :=
  s.data ≠ [] && s.data.all Char.isDigit

/-- remove_leading_numeric_tokens: drop leading tokens that are purely
numeric or dose-only; stop at the first other token. -/
def remove_leading_numeric_tokens : List String → List String
  | [] => []
  | p :: rest =>
    let first := pyStrip p
    if leadingNumberMatch first || allDigitsMatch first then
      remove_leading_numeric_tokens rest
    else p :: rest

/-- The per-token cleanup of `clean_ingredient_list` (lines 598-601):
collapse whitespace, remove `amin`/`amins` artifact words, strip a digit
suffix glued to a word of four or more letters, collapse again. -/
def stripDigitSuffix (s : String) : String :=
  let rev := s.data.reverse
  let dg := rev.takeWhile Char.isDigit
  if dg = [] then s
  else
    let rest := rev.drop dg.length
    let ls := rest.takeWhile isLowerAZ
    if ls.length ≥ 4 && nwBefore ((rest.drop ls.length).head?) then
      ⟨(rev.drop dg.length).reverse⟩
    else s

/-- Lines 598-601 of the source, in order. -/
def cleanupToken (s : String) : String :=
  let a := pyStrip (runSub wsRunF s)
  let b := pyStrip (runSub aminF a)
  let c := stripDigitSuffix b
  pyStrip (runSub wsRunF c)

/-- The `cleaned` list built by the filtering/classification loop of
`clean_ingredient_list`: the tokens (in order) that survive cleanup and
the two garbage filters. -/
def cleanedTokens : List String → List String
  | [] => []
  | ing0 :: rest =>
    let ingredient := cleanupToken ing0
    if is_garbage_token ingredient then cleanedTokens rest
    else if ingredient.length ≤ 2 then cleanedTokens rest
    else ingredient :: cleanedTokens rest

/-- The tokens of the `token_flags` list built by the same loop: the
surviving tokens classified `'unknown'`, in order. -/
def unknownsOf : List String → List String
  | [] => []
  | ing0 :: rest =>
    let ingredient := cleanupToken ing0
    if is_garbage_token ingredient then unknownsOf rest
    else if ingredient.length ≤ 2 then unknownsOf rest
    else if classify_token ingredient = "unknown" then ingredient :: unknownsOf rest
    else unknownsOf rest

/-- Python string `<=`, i.e. lexicographic comparison of the character
sequences by code point. -/
def strLe : List Char → List Char → Bool
  | [], _ => true
  | _ :: _, [] => false
  | a :: as, b :: bs =>
    if a = b then strLe as bs else decide (a < b)

/-- The ordering proposition behind `strLe`. -/
def strLeP (a b : String) : Prop :=
  strLe a.data b.data = true

instance : DecidableRel strLeP :=
  fun _ _ => inferInstanceAs (Decidable (_ = true))

/-- sorted(set(cleaned)): the distinct tokens in non-decreasing
lexicographic order (insertion sort; for the duplicate-free list produced
by `dedup`, any stable comparison sort yields this same list). -/
def sortedDedup (l : List String) : List String :=
  List.insertionSort strLeP l.dedup

/-- clean_ingredient_list. -/
def clean_ingredient_list (parts : List String) (original_text : String) :
    List String × List String :=
  let parts2 := remove_leading_numeric_tokens (expand_vitamin_shortcuts parts original_text)
  (sortedDedup (cleanedTokens parts2), unknownsOf parts2)

/-! ## Record assembler (`clean_active_ingredient`) -/

/-- The structured per-row result: `result` (`None` encodes a discarded
row), the row flags in order, and the unknown tokens. -/
structure CleanedRecord where
  result : Option String
  row_flags : List String
  unknown_tokens : List String
deriving DecidableEq, Repr

/-- The `row_flag` field of the source's returned dict is the
comma-join of the flag list. -/
def CleanedRecord.row_flag (r : CleanedRecord) : String :=
  pyJoin "," r.row_flags

/-- re.match(r'^\d+', cleaned_parts[0]): the first final token starts
with a digit. -/
def headIsDigit : List String → Bool
  | [] => false
  | t :: _ =>
    match t.data with
    | c :: _ => c.isDigit
    | [] => false

/-- The flag list assembled by `clean_active_ingredient` (source order:
VAGUE_CATEGORY, TRUNCATED, HAS_UNKNOWN_TOKENS, LEADING_NUMBER_UNRESOLVED). -/
def rowFlags (joined : String) (cleaned_parts unknowns : List String) : List String :=
  (if is_vague_category joined then ["VAGUE_CATEGORY"] else []) ++
  (if has_truncated_token cleaned_parts then ["TRUNCATED"] else []) ++
  (if unknowns ≠ [] then ["HAS_UNKNOWN_TOKENS"] else []) ++
  (if headIsDigit cleaned_parts then ["LEADING_NUMBER_UNRESOLVED"] else [])

/-- clean_active_ingredient: the complete per-row pipeline. -/
def clean_active_ingredient (v : Raw) : CleanedRecord :=
  match normalize_text (decode_encoded_tokens v) with
  | none => ⟨none, [], []⟩
  | some normalized =>
    if is_likely_garbage_phrase normalized then ⟨none, [], []⟩
    else if is_cosmetic_entry normalized then ⟨none, ["COSMETIC"], []⟩
    else
      let pr := clean_ingredient_list ((pySplitOn normalized '+').map pyStrip) normalized
      if pr.1 = [] then ⟨none, [], []⟩
      else
        ⟨some (pyJoin " + " pr.1), rowFlags (pyJoin " + " pr.1) pr.1 pr.2, pr.2⟩

/-- No suffix of the text matches the placeholder pattern (the invariant
the decoder's final pass establishes). -/
def NoPl (l : List Char) : Prop :=
  ∀ s, s <:+ l → matchPl s = none

/-! # Theorems -/

set_option maxRecDepth 100000

/-! ## General helper lemmas -/

theorem contains_iff_memStr {l : List String} {a : String} :
    l.contains a = true ↔ a ∈ l := by
  simp [List.contains]

theorem strLe_total : ∀ a b : List Char, strLe a b = true ∨ strLe b a = true
  | [], _ => Or.inl rfl
  | _ :: _, [] => Or.inr rfl
  | a :: as, b :: bs => by
    by_cases hab : a = b
    · subst hab
      simp only [strLe, if_pos rfl]
      exact strLe_total as bs
    · rcases lt_trichotomy a b with hlt | heq | hgt
      · left; simp [strLe, hab, hlt]
      · exact absurd heq hab
      · right
        have hba : b ≠ a := fun h => hab h.symm
        simp [strLe, hba, hgt]

theorem strLe_trans :
    ∀ a b c : List Char, strLe a b = true → strLe b c = true → strLe a c = true
  | [], _, _ => fun _ _ => rfl
  | a :: as, [], _ => by intro h _; simp [strLe] at h
  | a :: as, b :: bs, [] => by intro _ h; simp [strLe] at h
  | a :: as, b :: bs, c :: cs => by
    intro h1 h2
    simp only [strLe] at h1 h2 ⊢
    by_cases hab : a = b <;> by_cases hbc : b = c
    · subst hab; subst hbc
      simp only [if_pos rfl] at h1 h2 ⊢
      exact strLe_trans as bs cs h1 h2
    · subst hab
      simp only [if_neg hbc] at h2 ⊢
      exact h2
    · subst hbc
      simp only [if_neg hab] at h1 ⊢
      exact h1
    · simp only [if_neg hab, if_neg hbc, decide_eq_true_eq] at h1 h2
      have hac : a < c := lt_trans h1 h2
      simp [ne_of_lt hac, hac]

theorem sortedDedup_sorted (l : List String) : (sortedDedup l).Pairwise strLeP :=
  @List.sorted_insertionSort String strLeP _
    ⟨fun a b => by
      rcases strLe_total a.data b.data with h | h
      · exact Or.inl h
      · exact Or.inr h⟩
    ⟨fun a b c h1 h2 => strLe_trans a.data b.data c.data h1 h2⟩
    l.dedup

theorem sortedDedup_nodup (l : List String) : (sortedDedup l).Nodup :=
  ((List.perm_insertionSort strLeP l.dedup).symm.nodup (List.nodup_dedup l))

theorem mem_sortedDedup {l : List String} {a : String} :
    a ∈ sortedDedup l ↔ a ∈ l := by
  unfold sortedDedup
  rw [(List.perm_insertionSort strLeP l.dedup).mem_iff, List.mem_dedup]

/-- Every member of the three garbage tables is already in stripped,
lowercased form (so `t ∈ table` implies `pyLower (pyStrip t) = t`). -/
theorem garbage_tables_normalized :
    (GARBAGE_EXACT ++ GARBAGE_TOKENS_EXACT ++ NON_DRUG_TOKENS).all
      (fun g => pyLower (pyStrip g) = g) = true := by decide

theorem cleanedTokens_mem {parts : List String} {t : String}
    (h : t ∈ cleanedTokens parts) :
    is_garbage_token t = false ∧ ¬t.length ≤ 2 := by
  induction parts with
  | nil => simp [cleanedTokens] at h
  | cons p rest ih =>
    simp only [cleanedTokens] at h
    split at h
    · exact ih h
    · split at h
      · exact ih h
      · rcases List.mem_cons.mp h with rfl | hm
        · next hg hl => exact ⟨Bool.eq_false_iff.mpr hg, hl⟩
        · exact ih hm

theorem unknownsOf_sub {parts : List String} {t : String}
    (h : t ∈ unknownsOf parts) : t ∈ cleanedTokens parts := by
  induction parts with
  | nil => simp [unknownsOf] at h
  | cons p rest ih =>
    simp only [unknownsOf, cleanedTokens] at h ⊢
    by_cases h1 : is_garbage_token (cleanupToken p) = true
    · rw [if_pos h1] at h ⊢; exact ih h
    · rw [if_neg h1] at h ⊢
      by_cases h2 : (cleanupToken p).length ≤ 2
      · rw [if_pos h2] at h ⊢; exact ih h
      · rw [if_neg h2] at h ⊢
        by_cases h3 : classify_token (cleanupToken p) = "unknown"
        · rw [if_pos h3] at h
          rcases List.mem_cons.mp h with rfl | hm
          · exact List.mem_cons_self _ _
          · exact List.mem_cons_of_mem _ (ih hm)
        · rw [if_neg h3] at h
          exact List.mem_cons_of_mem _ (ih h)

/-- What `is_garbage_token t = false` says about a token that is a member
of one of the garbage tables: it cannot be one. -/
theorem not_mem_garbage_of_not_garbage_token {t : String}
    (h : is_garbage_token t = false) :
    t ∉ GARBAGE_EXACT ∧ t ∉ GARBAGE_TOKENS_EXACT ∧ t ∉ NON_DRUG_TOKENS := by
  unfold is_garbage_token at h
  simp only [Bool.or_eq_false_iff] at h
  have hnorm := garbage_tables_normalized
  rw [List.all_eq_true] at hnorm
  refine ⟨fun hm => ?_, fun hm => ?_, fun hm => ?_⟩
  · have heq : pyLower (pyStrip t) = t := by
      simpa using hnorm t (by simp [hm])
    have hf := h.1.1.1.2
    rw [heq] at hf
    have hc : GARBAGE_EXACT.contains t = true := contains_iff_memStr.mpr hm
    rw [hf] at hc
    exact Bool.false_ne_true hc
  · have heq : pyLower (pyStrip t) = t := by
      simpa using hnorm t (by simp [hm])
    have hf := h.1.1.2
    rw [heq] at hf
    have hc : GARBAGE_TOKENS_EXACT.contains t = true := contains_iff_memStr.mpr hm
    rw [hf] at hc
    exact Bool.false_ne_true hc
  · have heq : pyLower (pyStrip t) = t := by
      simpa using hnorm t (by simp [hm])
    have hf := h.1.2
    rw [heq] at hf
    have hc : NON_DRUG_TOKENS.contains t = true := contains_iff_memStr.mpr hm
    rw [hf] at hc
    exact Bool.false_ne_true hc

/-! ## Claim theorems -/

/-- C1: the spec's fixed-point contract fails on the code.  The input
`"zinc:and:o"` is cleaned to the present result `"zinc and o"` with no
flags (the colons become spaces only after separator unification), but
reprocessing that result string yields `"zinc"`: the second run turns the
now-exposed `" and "` into a separator and drops the short token `"o"`,
so the per-record pipeline is not idempotent on its own output. -/
theorem C1_idempotence_fails :
    clean_active_ingredient (Raw.text "zinc:and:o") =
      ⟨some "zinc and o", [], []⟩ ∧
    clean_active_ingredient (Raw.text "zinc and o") =
      ⟨some "zinc", [], []⟩ := by
  constructor <;> decide

/-- C3: the literal input `"1000 + folic acid + vitamin b12"` yields the
result `"cobalamin + folic acid"` — the b-vitamin code `b12` is rewritten
to `cobalamin`, the leading `1000` is stripped, and the record carries no
flags and no unknown tokens. -/
theorem C3_b12_example :
    clean_active_ingredient (Raw.text "1000 + folic acid + vitamin b12") =
      ⟨some "cobalamin + folic acid", [], []⟩ := by
  decide

/-- C6: the pipeline is total by construction (it is a plain function into
`CleanedRecord`), and every absent or non-text input yields the absent
record: discard is an output, not a failure. -/
theorem C6_nontext_absent (v : Raw) (h : ∀ s, v ≠ Raw.text s) :
    clean_active_ingredient v = ⟨none, [], []⟩ := by
  cases v with
  | null => rfl
  | text s => exact absurd rfl (h s)
  | other => rfl

theorem C6_nontext_absent_witness :
    clean_active_ingredient Raw.null = ⟨none, [], []⟩ :=
  C6_nontext_absent Raw.null (fun _ h => Raw.noConfusion h)

/-- C7: synonyms are never merged — `"paracetamol"` cleans to exactly
`"paracetamol"` and `"acetaminophen"` to exactly `"acetaminophen"`;
neither is rewritten into the other. -/
theorem C7_synonyms_not_merged :
    clean_active_ingredient (Raw.text "paracetamol") =
      ⟨some "paracetamol", [], []⟩ ∧
    clean_active_ingredient (Raw.text "acetaminophen") =
      ⟨some "acetaminophen", [], []⟩ := by
  constructor <;> decide

/-- C4 counterexample: the literal input
`"350m + cream + hair + smooth + styling"` satisfies the claim's
hypothesis (its normalized text has at least two distinct cosmetic
words), yet the pipeline returns the absent result with an *empty* flag
list — not the COSMETIC flag.  The likely-garbage-phrase check runs
first, counts the `+` signs as words, finds no ingredient keyword, and
discards the record silently. -/
theorem C4_cosmetic_counterexample :
    is_cosmetic_entry "350m + cream + hair + smooth + styling" = true ∧
    clean_active_ingredient (Raw.text "350m + cream + hair + smooth + styling") =
      ⟨none, [], []⟩ := by
  constructor <;> decide

/-- C4 (amended): a normalized entry with at least two distinct cosmetic
words is discarded with exactly the COSMETIC flag *provided* the
likely-garbage-phrase check (which runs first) did not already discard it
silently. -/
theorem C4_cosmetic_discard (v : Raw) (n : String)
    (h1 : normalize_text (decode_encoded_tokens v) = some n)
    (h2 : is_likely_garbage_phrase n = false)
    (h3 : is_cosmetic_entry n = true) :
    clean_active_ingredient v = ⟨none, ["COSMETIC"], []⟩ := by
  unfold clean_active_ingredient
  rw [h1]
  simp [h2, h3]

theorem C4_cosmetic_discard_witness :
    clean_active_ingredient (Raw.text "cream gel") = ⟨none, ["COSMETIC"], []⟩ :=
  C4_cosmetic_discard (Raw.text "cream gel") "cream gel"
    (by decide) (by decide) (by decide)

/-- C5: a normalized entry with at least three whitespace-separated words,
none of which contains a known-ingredient keyword as a substring, is
discarded silently: absent result and empty flag list. -/
theorem C5_garbage_phrase_silent (v : Raw) (n : String)
    (h1 : normalize_text (decode_encoded_tokens v) = some n)
    (hw : 3 ≤ (pySplit (pyLower n)).length)
    (hk : ∀ w ∈ pySplit (pyLower n), ∀ kw ∈ KNOWN_INGREDIENT_KEYWORDS,
      containsStr w kw = false) :
    clean_active_ingredient v = ⟨none, [], []⟩ := by
  have hg : is_likely_garbage_phrase n = true := by
    unfold is_likely_garbage_phrase
    rw [Bool.and_eq_true]
    constructor
    · exact decide_eq_true hw
    · have hnil : (pySplit (pyLower n)).filter
          (fun w => KNOWN_INGREDIENT_KEYWORDS.any fun kw => containsStr w kw) = [] := by
        rw [List.filter_eq_nil_iff]
        intro w hwmem
        rw [Bool.not_eq_true, List.any_eq_false]
        intro kw hkw hkm
        exact Bool.false_ne_true ((hk w hwmem kw hkw) ▸ hkm)
      rw [hnil]
      decide
  unfold clean_active_ingredient
  rw [h1]
  simp [hg]

theorem C5_garbage_phrase_silent_witness :
    clean_active_ingredient (Raw.text "qqq www eee") = ⟨none, [], []⟩ :=
  C5_garbage_phrase_silent (Raw.text "qqq www eee") "qqq www eee"
    (by decide) (by decide) (by decide)

/-- C8: in the token pipeline, a stripped token that is a recognized
vitamin letter code is rewritten to `vitamin <code>` exactly when the
original normalized text contains the literal word `vitamin` (substring
test `"vitamin" in original_text`, as the source performs it); when the
text does not contain it, the token is left unchanged. -/
theorem C8_vitamin_shortcut_gate (orig p : String)
    (hp : pyStrip p ∈ VALID_VITAMIN_LETTERS) :
    (expand_vitamin_shortcuts [p] orig = ["vitamin " ++ pyStrip p] ↔
      containsStr orig "vitamin" = true) ∧
    (containsStr orig "vitamin" = false →
      expand_vitamin_shortcuts [p] orig = [pyStrip p]) := by
  have hshape : pyStrip p ≠ "" ∧ "vitamin ".data.isPrefixOf (pyStrip p).data = false := by
    have hall : VALID_VITAMIN_LETTERS.all
        (fun x => !(x = "") && !("vitamin ".data.isPrefixOf x.data)) = true := by decide
    rw [List.all_eq_true] at hall
    have hx := hall _ hp
    rw [Bool.and_eq_true, Bool.not_eq_true', Bool.not_eq_true'] at hx
    exact ⟨by simpa using hx.1, hx.2⟩
  have hcont : VALID_VITAMIN_LETTERS.contains (pyStrip p) = true :=
    contains_iff_memStr.mpr hp
  unfold expand_vitamin_shortcuts
  simp only [List.filterMap, if_neg hshape.1, hshape.2, Bool.false_eq_true, if_false,
    hcont, Bool.and_true]
  by_cases hv : containsStr orig "vitamin" = true
  · rw [hv]
    exact ⟨by simp, fun h => absurd h (by simp)⟩
  · rw [Bool.not_eq_true] at hv
    rw [hv]
    refine ⟨⟨fun he => ?_, fun hf => absurd hf (by simp)⟩, fun _ => rfl⟩
    exfalso
    have he' : [pyStrip p] = ["vitamin " ++ pyStrip p] := he
    injection he' with h1
    have hlen := congrArg String.length h1
    rw [String.length_append] at hlen
    have h8 : ("vitamin " : String).length = 8 := by decide
    rw [h8] at hlen
    omega

theorem C8_vitamin_shortcut_gate_witness :
    expand_vitamin_shortcuts ["c"] "vitamin c" = ["vitamin c"] :=
  (C8_vitamin_shortcut_gate "vitamin c" "c" (by decide)).1.mpr (by decide)

/-- C2: whenever the pipeline's result is present it is the `+`-join of a
non-empty, duplicate-free list of tokens in non-decreasing lexicographic
order (`strLeP` is code-point lexicographic `≤`), in which every token
has length greater than two and belongs to none of the exact-garbage,
standalone-garbage-token, and non-drug term sets. -/
theorem C2_result_invariant (v : Raw) (s : String)
    (h : (clean_active_ingredient v).result = some s) :
    ∃ l : List String, l ≠ [] ∧ s = pyJoin " + " l ∧ l.Nodup ∧ l.Pairwise strLeP ∧
      ∀ t ∈ l, 2 < t.length ∧ t ∉ GARBAGE_EXACT ∧ t ∉ GARBAGE_TOKENS_EXACT ∧
        t ∉ NON_DRUG_TOKENS := by
  unfold clean_active_ingredient at h
  cases hn : normalize_text (decode_encoded_tokens v) with
  | none => rw [hn] at h; simp at h
  | some n =>
    rw [hn] at h
    by_cases hg : is_likely_garbage_phrase n = true
    · simp [hg] at h
    · by_cases hc : is_cosmetic_entry n = true
      · simp [hg, hc] at h
      · by_cases he : (clean_ingredient_list ((pySplitOn n '+').map pyStrip) n).1 = []
        · simp [hg, hc, he] at h
        · simp only [hg, hc, he] at h
          have hs : s =
              pyJoin " + " (clean_ingredient_list ((pySplitOn n '+').map pyStrip) n).1 := by
            simp [hg, hc, he] at h
            exact h.symm
          refine ⟨(clean_ingredient_list ((pySplitOn n '+').map pyStrip) n).1,
            he, hs, ?_, ?_, ?_⟩
          · exact sortedDedup_nodup _
          · exact sortedDedup_sorted _
          · intro t ht
            have ht' : t ∈ cleanedTokens (remove_leading_numeric_tokens
                (expand_vitamin_shortcuts ((pySplitOn n '+').map pyStrip) n)) :=
              mem_sortedDedup.mp ht
            obtain ⟨hgar, hlen⟩ := cleanedTokens_mem ht'
            obtain ⟨m1, m2, m3⟩ := not_mem_garbage_of_not_garbage_token hgar
            exact ⟨Nat.lt_of_not_le (fun hx => hlen hx), m1, m2, m3⟩

theorem C2_result_invariant_witness :
    ∃ l : List String, l ≠ [] ∧ "cobalamin + folic acid" = pyJoin " + " l ∧
      l.Nodup ∧ l.Pairwise strLeP ∧
      ∀ t ∈ l, 2 < t.length ∧ t ∉ GARBAGE_EXACT ∧ t ∉ GARBAGE_TOKENS_EXACT ∧
        t ∉ NON_DRUG_TOKENS :=
  C2_result_invariant (Raw.text "1000 + folic acid + vitamin b12")
    "cobalamin + folic acid" (by decide)

theorem mem_has_unknown_rowFlags (j : String) (cp un : List String) :
    "HAS_UNKNOWN_TOKENS" ∈ rowFlags j cp un ↔ un ≠ [] := by
  unfold rowFlags
  by_cases h1 : is_vague_category j = true <;>
    by_cases h2 : has_truncated_token cp = true <;>
      by_cases h3 : un ≠ [] <;>
        by_cases h4 : headIsDigit cp = true <;>
          simp [h1, h2, h3, h4]

/-- C10: the record carries HAS_UNKNOWN_TOKENS exactly when its
unknown-token list is non-empty, and every unknown token also appears
among the `+`-joined segments of the (then present) result string —
unknown tokens are recorded but never removed from the result. -/
theorem C10_unknown_tokens_invariant (v : Raw) :
    ("HAS_UNKNOWN_TOKENS" ∈ (clean_active_ingredient v).row_flags ↔
      (clean_active_ingredient v).unknown_tokens ≠ []) ∧
    ∀ t ∈ (clean_active_ingredient v).unknown_tokens,
      ∃ s l, (clean_active_ingredient v).result = some s ∧ s = pyJoin " + " l ∧ t ∈ l := by
  unfold clean_active_ingredient
  cases hn : normalize_text (decode_encoded_tokens v) with
  | none => simp
  | some n =>
    by_cases hg : is_likely_garbage_phrase n = true
    · simp [hg]
    · by_cases hc : is_cosmetic_entry n = true
      · simp [hg, hc]
      · by_cases he : (clean_ingredient_list ((pySplitOn n '+').map pyStrip) n).1 = []
        · simp [hg, hc, he]
        · simp only [hg, hc, he, if_false, if_neg, Bool.false_eq_true]
          constructor
          · simpa [hg, hc, he] using
              mem_has_unknown_rowFlags
                (pyJoin " + " (clean_ingredient_list ((pySplitOn n '+').map pyStrip) n).1)
                (clean_ingredient_list ((pySplitOn n '+').map pyStrip) n).1
                (clean_ingredient_list ((pySplitOn n '+').map pyStrip) n).2
          · intro t ht
            have ht2 : t ∈ (clean_ingredient_list ((pySplitOn n '+').map pyStrip) n).2 := by
              simpa [hg, hc, he] using ht
            have ht3 : t ∈ unknownsOf (remove_leading_numeric_tokens
                (expand_vitamin_shortcuts ((pySplitOn n '+').map pyStrip) n)) := ht2
            refine ⟨pyJoin " + " (clean_ingredient_list ((pySplitOn n '+').map pyStrip) n).1,
              (clean_ingredient_list ((pySplitOn n '+').map pyStrip) n).1, ?_, rfl, ?_⟩
            · simp [hg, hc, he]
            · exact mem_sortedDedup.mpr (unknownsOf_sub ht3)

theorem C10_unknown_tokens_invariant_witness :
    ∃ s l, (clean_active_ingredient (Raw.text "xyz + zinc")).result = some s ∧
      s = pyJoin " + " l ∧ "xyz" ∈ l :=
  (C10_unknown_tokens_invariant (Raw.text "xyz + zinc")).2 "xyz" (by decide)

/-! ## C9 — idempotence of the placeholder decoder

The final pass of the decoder wipes every placeholder-shaped token, and
the map replacements only produce placeholder-free text, so a decoded
string contains no suffix on which the placeholder pattern matches;
decoding it again is therefore the identity.  The lemmas below establish
exactly that. -/

theorem digit_not_upperAZ {c : Char} (h : c.isDigit = true) : isUpperAZ c = false := by
  simp only [Char.isDigit, Bool.and_eq_true, decide_eq_true_eq] at h
  simp only [isUpperAZ, Bool.and_eq_false_iff, decide_eq_false_iff_not]
  left
  intro hle
  rw [Char.le_def] at hle
  have t1 : ('A'.val).toNat ≤ (c.val).toNat := hle
  have t2 : (c.val).toNat ≤ ((57 : UInt32)).toNat := h.2
  have hA : ('A'.val).toNat = 65 := by decide
  have h57 : ((57 : UInt32)).toNat = 57 := by decide
  omega

theorem upperAZ_ne_space {c : Char} (h : isUpperAZ c = true) : c ≠ ' ' := by
  intro hc; subst hc; simp [isUpperAZ] at h

theorem digit_ne_space {c : Char} (h : c.isDigit = true) : c ≠ ' ' := by
  intro hc; subst hc; simp [Char.isDigit] at h

theorem takeWhile_append_of_all {p : Char → Bool} :
    ∀ {U x : List Char}, (∀ c ∈ U, p c = true) →
      (U ++ x).takeWhile p = U ++ x.takeWhile p := by
  intro U
  induction U with
  | nil => intro x _; simp
  | cons a U ih =>
    intro x h
    have ha : p a = true := h a (List.mem_cons_self a U)
    simp only [List.cons_append, List.takeWhile_cons, ha, if_true]
    rw [ih (fun c hc => h c (List.mem_cons_of_mem a hc))]

theorem dropWhile_append_of_all {p : Char → Bool} :
    ∀ {U x : List Char}, (∀ c ∈ U, p c = true) →
      (U ++ x).dropWhile p = x.dropWhile p := by
  intro U
  induction U with
  | nil => intro x _; simp
  | cons a U ih =>
    intro x h
    have ha : p a = true := h a (List.mem_cons_self a U)
    simp only [List.cons_append, List.dropWhile_cons, ha, if_true]
    exact ih (fun c hc => h c (List.mem_cons_of_mem a hc))

theorem takeWhile_eq_nil_of_head {p : Char → Bool} {c : Char} {x : List Char}
    (h : p c = false) : (c :: x).takeWhile p = [] := by
  simp [List.takeWhile_cons, h]

theorem dropWhile_eq_self_of_head {p : Char → Bool} {c : Char} {x : List Char}
    (h : p c = false) : (c :: x).dropWhile p = c :: x := by
  simp [List.dropWhile_cons, h]

/-- Backward characterization of `parseBody`: a nonempty run of capitals,
a nonempty run of digits, then `__`, parses with the expected length. -/
theorem parseBody_of_shape {U D r : List Char}
    (hU : U ≠ []) (hD : D ≠ [])
    (hUall : ∀ c ∈ U, isUpperAZ c = true) (hDall : ∀ c ∈ D, c.isDigit = true) :
    parseBody (U ++ D ++ '_' :: '_' :: r) = some (U.length + D.length + 2) := by
  obtain ⟨d, D', rfl⟩ : ∃ d D', D = d :: D' := by
    cases D with
    | nil => exact absurd rfl hD
    | cons d D' => exact ⟨d, D', rfl⟩
  have hd : d.isDigit = true := hDall d (List.mem_cons_self d D')
  have h1 : (U ++ (d :: D') ++ '_' :: '_' :: r).takeWhile isUpperAZ = U := by
    rw [List.append_assoc, takeWhile_append_of_all hUall, List.cons_append,
      takeWhile_eq_nil_of_head (digit_not_upperAZ hd), List.append_nil]
  have h2 : (U ++ (d :: D') ++ '_' :: '_' :: r).dropWhile isUpperAZ
      = (d :: D') ++ '_' :: '_' :: r := by
    rw [List.append_assoc, dropWhile_append_of_all hUall, List.cons_append,
      dropWhile_eq_self_of_head (digit_not_upperAZ hd)]
  have h3 : ((d :: D') ++ '_' :: '_' :: r).takeWhile Char.isDigit = d :: D' := by
    rw [takeWhile_append_of_all hDall, takeWhile_eq_nil_of_head (p := Char.isDigit)
      (by decide), List.append_nil]
  have h4 : ((d :: D') ++ '_' :: '_' :: r).dropWhile Char.isDigit = '_' :: '_' :: r := by
    rw [dropWhile_append_of_all hDall, dropWhile_eq_self_of_head (p := Char.isDigit)
      (by decide)]
  unfold parseBody
  simp only [h1, h2, h3, h4]
  rw [if_neg hU, if_neg (by simp)]

/-- Forward characterization of `parseBody`. -/
theorem parseBody_shape {t : List Char} {k : Nat} (h : parseBody t = some k) :
    ∃ U D r, t = U ++ D ++ '_' :: '_' :: r ∧ U ≠ [] ∧ D ≠ [] ∧
      (∀ c ∈ U, isUpperAZ c = true) ∧ (∀ c ∈ D, c.isDigit = true) ∧
      k = U.length + D.length + 2 := by
  unfold parseBody at h
  simp only at h
  split at h
  · exact absurd h (by simp)
  · next hU =>
    split at h
    · exact absurd h (by simp)
    · next hD =>
      revert h
      split
      · next r heq =>
        intro h
        obtain rfl : (t.takeWhile isUpperAZ).length +
            ((t.dropWhile isUpperAZ).takeWhile Char.isDigit).length + 2 = k := by
          injection h
        refine ⟨t.takeWhile isUpperAZ, (t.dropWhile isUpperAZ).takeWhile Char.isDigit,
          r, ?_, hU, hD, ?_, ?_, rfl⟩
        · conv_lhs => rw [← List.takeWhile_append_dropWhile (p := isUpperAZ) (l := t)]
          rw [List.append_assoc]
          congr 1
          conv_lhs => rw [← List.takeWhile_append_dropWhile (p := Char.isDigit)
            (l := t.dropWhile isUpperAZ)]
          rw [heq]
        · intro c hc; exact List.mem_takeWhile_imp hc
        · intro c hc; exact List.mem_takeWhile_imp hc
      · intro h; exact absurd h (by simp)

theorem matchPl_none_head {c : Char} {xs : List Char} (h : c ≠ '_') :
    matchPl (c :: xs) = none := by
  cases xs with
  | nil => rfl
  | cons d t => simp [matchPl, h]

theorem matchPl_none_second {c d : Char} {xs : List Char} (h : d ≠ '_') :
    matchPl (c :: d :: xs) = none := by
  simp [matchPl, h]

/-- Backward characterization of `matchPl`. -/
theorem matchPl_of_shape {U D r : List Char}
    (hU : U ≠ []) (hD : D ≠ [])
    (hUall : ∀ c ∈ U, isUpperAZ c = true) (hDall : ∀ c ∈ D, c.isDigit = true) :
    matchPl ('_' :: '_' :: (U ++ D ++ '_' :: '_' :: r)) =
      some (U.length + D.length + 4) := by
  rw [show matchPl ('_' :: '_' :: (U ++ D ++ '_' :: '_' :: r))
      = (parseBody (U ++ D ++ '_' :: '_' :: r)).map (· + 2) from rfl]
  rw [parseBody_of_shape hU hD hUall hDall]
  simp only [Option.map_some', Option.some.injEq]

/-- Forward characterization of `matchPl`, together with the position the
scan resumes at. -/
theorem matchPl_shape {l : List Char} {k : Nat} (h : matchPl l = some k) :
    ∃ U D r, l = '_' :: '_' :: (U ++ D ++ '_' :: '_' :: r) ∧ U ≠ [] ∧ D ≠ [] ∧
      (∀ c ∈ U, isUpperAZ c = true) ∧ (∀ c ∈ D, c.isDigit = true) ∧
      k = U.length + D.length + 4 ∧ l.drop k = r := by
  match l with
  | [] => exact absurd h (by simp [matchPl])
  | [c] => exact absurd h (by simp [matchPl])
  | c1 :: c2 :: t =>
    rw [show matchPl (c1 :: c2 :: t)
        = if c1 = '_' ∧ c2 = '_' then (parseBody t).map (· + 2) else none from rfl] at h
    split at h
    · next hc =>
      obtain ⟨rfl, rfl⟩ := hc
      rw [Option.map_eq_some'] at h
      obtain ⟨n, hn, rfl⟩ := h
      obtain ⟨U, D, r, rfl, hU, hD, hUall, hDall, rfl⟩ := parseBody_shape hn
      refine ⟨U, D, r, rfl, hU, hD, hUall, hDall, by omega, ?_⟩
      have hsplit : '_' :: '_' :: (U ++ D ++ '_' :: '_' :: r)
          = ('_' :: '_' :: (U ++ D ++ ['_', '_'])) ++ r := by simp
      have hlen : ('_' :: '_' :: (U ++ D ++ ['_', '_'])).length
          = U.length + D.length + 2 + 2 := by simp; omega
      rw [hsplit, ← hlen, List.drop_left]
    · exact absurd h (by simp)

theorem wipePl_nil (fuel : Nat) : wipePl fuel [] = [] := by
  cases fuel <;> rfl

theorem wipePl_cons_some {fuel : Nat} {c : Char} {rest : List Char} {k : Nat}
    (h : matchPl (c :: rest) = some k) :
    wipePl (fuel + 1) (c :: rest) = ' ' :: wipePl fuel ((c :: rest).drop k) := by
  conv_lhs => unfold wipePl
  rw [h]

theorem wipePl_cons_none {fuel : Nat} {c : Char} {rest : List Char}
    (h : matchPl (c :: rest) = none) :
    wipePl (fuel + 1) (c :: rest) = c :: wipePl fuel rest := by
  conv_lhs => unfold wipePl
  rw [h]

theorem NoPl_nil : NoPl [] := by
  intro s hs
  rw [List.suffix_nil.mp hs]
  rfl

theorem NoPl_tail {c : Char} {rest : List Char} (h : NoPl (c :: rest)) : NoPl rest :=
  fun s hs => h s (hs.trans (List.suffix_cons c rest))

/-- A space-free prefix of the wiped text is a prefix of the text itself
(the scan copies every character it does not replace, and every
replacement is a space). -/
theorem wipePl_prefix : ∀ (fuel : Nat) (l p : List Char),
    p <+: wipePl fuel l → (∀ c ∈ p, c ≠ ' ') → p <+: l := by
  intro fuel
  induction fuel with
  | zero =>
    intro l p hp _
    cases l with
    | nil => rw [wipePl_nil] at hp; exact hp
    | cons c rest => exact hp
  | succ fuel ih =>
    intro l p hp hns
    cases l with
    | nil => rw [wipePl_nil] at hp; exact hp
    | cons c rest =>
      cases hm : matchPl (c :: rest) with
      | some k =>
        rw [wipePl_cons_some hm] at hp
        cases p with
        | nil => exact List.nil_prefix
        | cons q qs =>
          rw [List.cons_prefix_cons] at hp
          exact absurd hp.1 (hns q (List.mem_cons_self _ _))
      | none =>
        rw [wipePl_cons_none hm] at hp
        cases p with
        | nil => exact List.nil_prefix
        | cons q qs =>
          rw [List.cons_prefix_cons] at hp
          obtain ⟨rfl, hqs⟩ := hp
          rw [List.cons_prefix_cons]
          exact ⟨rfl, ih rest qs hqs (fun x hx => hns x (List.mem_cons_of_mem _ hx))⟩

/-- If the pattern body parses at the head of the wiped text, it already
parsed at the head of the original text: the whole consumed region is
space-free, so it lies in the preserved prefix. -/
theorem parseBody_some_wipe {t : List Char} {fuel k : Nat}
    (hq : parseBody (wipePl fuel t) = some k) :
    ∃ m, parseBody t = some m := by
  obtain ⟨U, D, r, heq, hU, hD, hUall, hDall, -⟩ := parseBody_shape hq
  have hpre : (U ++ D ++ ['_', '_']) <+: wipePl fuel t := by
    rw [heq]
    exact ⟨r, by simp⟩
  have hns : ∀ c ∈ U ++ D ++ ['_', '_'], c ≠ ' ' := by
    intro c hc
    rcases List.mem_append.mp hc with hc1 | hc2
    · rcases List.mem_append.mp hc1 with hcu | hcd
      · exact upperAZ_ne_space (hUall c hcu)
      · exact digit_ne_space (hDall c hcd)
    · have hcu : c = '_' := by simpa using hc2
      subst hcu
      decide
  obtain ⟨r', hr'⟩ := wipePl_prefix fuel t _ hpre hns
  have ht : t = U ++ D ++ '_' :: '_' :: r' := by
    rw [← hr']
    simp
  rw [ht]
  exact ⟨U.length + D.length + 2, parseBody_of_shape hU hD hUall hDall⟩

/-- If the placeholder pattern does not match at a position, it still
does not match there after the rest of the text has been wiped. -/
theorem matchPl_none_wipe {c : Char} {rest : List Char} {fuel : Nat}
    (h : matchPl (c :: rest) = none) (hf : rest.length ≤ fuel) :
    matchPl (c :: wipePl fuel rest) = none := by
  by_cases hc : c = '_'
  · subst hc
    cases rest with
    | nil => rw [wipePl_nil]; rfl
    | cons d rest2 =>
      obtain ⟨f, rfl⟩ : ∃ f, fuel = f + 1 := by
        cases fuel with
        | zero => simp at hf
        | succ f => exact ⟨f, rfl⟩
      have hf2 : rest2.length ≤ f := by
        simp only [List.length_cons] at hf
        omega
      cases hm : matchPl (d :: rest2) with
      | some k =>
        rw [wipePl_cons_some hm]
        exact matchPl_none_second (by decide)
      | none =>
        rw [wipePl_cons_none hm]
        by_cases hd : d = '_'
        · subst hd
          have hpb : parseBody rest2 = none := by
            rw [show matchPl ('_' :: '_' :: rest2)
                = (parseBody rest2).map (· + 2) from rfl] at h
            cases hp : parseBody rest2 with
            | none => rfl
            | some n => rw [hp] at h; simp at h
          rw [show matchPl ('_' :: '_' :: wipePl f rest2)
              = (parseBody (wipePl f rest2)).map (· + 2) from rfl]
          cases hq : parseBody (wipePl f rest2) with
          | none => rfl
          | some n =>
            obtain ⟨m, hmm⟩ := parseBody_some_wipe hq
            rw [hpb] at hmm
            exact Option.noConfusion hmm
        · exact matchPl_none_second hd
  · exact matchPl_none_head hc

/-- The decoder's final pass leaves no placeholder match anywhere in its
output. -/
theorem NoPl_wipePl : ∀ (fuel : Nat) (l : List Char), l.length ≤ fuel →
    NoPl (wipePl fuel l) := by
  intro fuel
  induction fuel with
  | zero =>
    intro l hl
    have : l = [] := List.eq_nil_of_length_eq_zero (Nat.le_zero.mp hl)
    subst this
    rw [wipePl_nil]
    exact NoPl_nil
  | succ fuel ih =>
    intro l hl
    cases l with
    | nil => rw [wipePl_nil]; exact NoPl_nil
    | cons c rest =>
      cases hm : matchPl (c :: rest) with
      | some k =>
        rw [wipePl_cons_some hm]
        have hk1 : 1 ≤ k := by
          obtain ⟨U, D, r, -, -, -, -, -, hk, -⟩ := matchPl_shape hm
          omega
        have hrec : NoPl (wipePl fuel ((c :: rest).drop k)) := by
          apply ih
          simp only [List.length_drop, List.length_cons]
          simp only [List.length_cons] at hl
          omega
        intro s hs
        rcases List.suffix_cons_iff.mp hs with rfl | hs2
        · exact matchPl_none_head (by decide)
        · exact hrec s hs2
      | none =>
        rw [wipePl_cons_none hm]
        have hlen : rest.length ≤ fuel := by
          simp only [List.length_cons] at hl
          omega
        have hrec : NoPl (wipePl fuel rest) := ih rest hlen
        intro s hs
        rcases List.suffix_cons_iff.mp hs with rfl | hs2
        · exact matchPl_none_wipe hm hlen
        · exact hrec s hs2

/-- Wiping placeholder-free text is the identity. -/
theorem wipePl_id : ∀ (fuel : Nat) (l : List Char), NoPl l → l.length ≤ fuel →
    wipePl fuel l = l := by
  intro fuel
  induction fuel with
  | zero =>
    intro l _ hl
    have : l = [] := List.eq_nil_of_length_eq_zero (Nat.le_zero.mp hl)
    subst this
    exact wipePl_nil 0
  | succ fuel ih =>
    intro l hN hl
    cases l with
    | nil => exact wipePl_nil _
    | cons c rest =>
      have hm : matchPl (c :: rest) = none := hN _ (List.suffix_refl _)
      rw [wipePl_cons_none hm]
      have hlen : rest.length ≤ fuel := by
        simp only [List.length_cons] at hl
        omega
      rw [ih rest (NoPl_tail hN) hlen]

/-- Replacing a pattern that occurs nowhere is the identity. -/
theorem replaceAll_id {pat rep : List Char} : ∀ (fuel : Nat) (l : List Char),
    (∀ s, s <:+ l → ¬pat <+: s) → replaceAll pat rep fuel l = l := by
  intro fuel
  induction fuel with
  | zero => intro l _; cases l <;> rfl
  | succ fuel ih =>
    intro l hs
    cases l with
    | nil => rfl
    | cons c rest =>
      unfold replaceAll
      rw [if_neg]
      · rw [ih rest (fun s hsuf => hs s (hsuf.trans (List.suffix_cons c rest)))]
      · intro hcontra
        exact hs (c :: rest) (List.suffix_refl _)
          ( List.isPrefixOf_iff_prefix.mp hcontra.2)

/-- Any occurrence of one of the three mapped placeholder tokens is a
placeholder match. -/
theorem matchPl_some_of_token {tok s : List Char}
    (htok : tok = "__ING0024__".data ∨ tok = "__ING0035__".data ∨ tok = "__ING0055__".data)
    (hpre : tok <+: s) : ∃ k, matchPl s = some k := by
  obtain ⟨r, rfl⟩ := hpre
  rcases htok with rfl | rfl | rfl
  · exact ⟨"ING".data.length + "0024".data.length + 4,
      matchPl_of_shape (U := "ING".data) (D := "0024".data) (r := r)
        (by decide) (by decide) (by decide) (by decide)⟩
  · exact ⟨"ING".data.length + "0035".data.length + 4,
      matchPl_of_shape (U := "ING".data) (D := "0035".data) (r := r)
        (by decide) (by decide) (by decide) (by decide)⟩
  · exact ⟨"ING".data.length + "0055".data.length + 4,
      matchPl_of_shape (U := "ING".data) (D := "0055".data) (r := r)
        (by decide) (by decide) (by decide) (by decide)⟩

theorem NoPl_decodeChars (l : List Char) : NoPl (decodeChars l) := by
  unfold decodeChars wipeAll
  exact NoPl_wipePl _ _ (le_refl _)

theorem decodeChars_idem (l : List Char) :
    decodeChars (decodeChars l) = decodeChars l := by
  have hN : NoPl (decodeChars l) := NoPl_decodeChars l
  have hno : ∀ tok, (tok = "__ING0024__".data ∨ tok = "__ING0035__".data ∨
      tok = "__ING0055__".data) →
      ∀ s, s <:+ decodeChars l → ¬tok <+: s := by
    intro tok ht s hsuf hpre
    obtain ⟨k, hk⟩ := matchPl_some_of_token ht hpre
    rw [hN s hsuf] at hk
    exact Option.noConfusion hk
  generalize decodeChars l = w at hN hno ⊢
  unfold decodeChars replaceTok
  rw [replaceAll_id _ _ (hno _ (Or.inl rfl))]
  rw [replaceAll_id _ _ (hno _ (Or.inr (Or.inl rfl)))]
  rw [replaceAll_id _ _ (hno _ (Or.inr (Or.inr rfl)))]
  unfold wipeAll
  exact wipePl_id _ _ hN (le_refl _)

/-- C9: the placeholder-token decoder is idempotent on every string, and
returns every non-string input unchanged. -/
theorem C9_decoder_idempotent :
    (∀ s : String, decode_encoded_tokens (decode_encoded_tokens (Raw.text s)) =
      decode_encoded_tokens (Raw.text s)) ∧
    (∀ v : Raw, (∀ s, v ≠ Raw.text s) → decode_encoded_tokens v = v) := by
  constructor
  · intro s
    show Raw.text ⟨decodeChars (decodeChars s.data)⟩ = Raw.text ⟨decodeChars s.data⟩
    rw [decodeChars_idem]
  · intro v h
    cases v with
    | null => rfl
    | text s => exact absurd rfl (h s)
    | other => rfl

theorem C9_decoder_idempotent_witness :
    decode_encoded_tokens (decode_encoded_tokens (Raw.text "sp__ING0055__olactone")) =
      decode_encoded_tokens (Raw.text "sp__ING0055__olactone") ∧
    decode_encoded_tokens Raw.null = Raw.null :=
  ⟨C9_decoder_idempotent.1 "sp__ING0055__olactone",
   C9_decoder_idempotent.2 Raw.null (fun _ h => Raw.noConfusion h)⟩
